import Mathlib

/-!
Verification of the parcel-lookup and snapping engine of the cadastral map
application (`src/app.js`).

The development has three layers:

* a model of the GeoJSON property bags and the identifier / label derivation
  (`getParcelId`, `getParcelLabel`, the `cadastralFeatures` map);
* a typed model of the geometry pipeline (`pointInRing`, `pointInPolygon`,
  `pointInGeometry`, `bboxOfCoords`, `findParcelFeatureAtLatLng`, the
  `L.Draw.Event.CREATED` snap handler) over well-formed coordinates, with
  numbers embedded as rationals;
* a dynamically-typed model over JavaScript-like values (`JsVal`), in which a
  computation can raise a `TypeError` (`Except.error`), used for the claims
  about totality and about behaviour on malformed coordinate data.
-/

/-! ## Property values and feature records -/

/-- A JavaScript property value as it occurs in a GeoJSON `properties` bag or
as a top-level feature `id`: a string, an integral number, a boolean, or
`null`.  An absent key is `Option.none` at the use site (JS `undefined`). -/
inductive JsProp where
  | str (s : String)
  | int (n : Int)
  | boolv (b : Bool)
  | nullv
deriving DecidableEq

/-- JavaScript `String(v)` on a property value. -/
def jsPropToString : JsProp → String
  | .str s => s
  | .int n => toString n
  | .boolv b => if b then "true" else "false"
  | .nullv => "null"

/-- JavaScript truthiness of a property value. -/
def truthy : JsProp → Bool
  | .str s => decide (s ≠ "")
  | .int n => decide (n ≠ 0)
  | .boolv b => b
  | .nullv => false

/-- Truthiness of a possibly-absent value (`undefined` is falsy). -/
def truthyOpt : Option JsProp → Bool
  | some v => truthy v
  | none => false

/-- Template-literal stringification of a possibly-absent value
(JS renders `undefined` as the string `"undefined"`). -/
def templStr : Option JsProp → String
  | some v => jsPropToString v
  | none => "undefined"

/-- A raw GeoJSON feature record as consumed by the identifier and label
derivation: the optional top-level `id` and the optional `properties` bag. -/
structure RawFeature where
  id : Option JsProp
  properties : Option (String → Option JsProp)

/-- `feature.properties || {}`. -/
def propsOf (f : RawFeature) : String → Option JsProp :=
  f.properties.getD (fun _ => none)

/-- The candidate list of `getParcelId`, in source order:
`[feature.id, props.PARCEL_ID, props.PARCELID, props.PARCEL, props.LOTPLAN,
props.LOT_PLAN, props.LOT, props.PLAN, props.OBJECTID, props.ObjectID,
props.ID, props.Id]`. -/
def parcelIdCandidates (f : RawFeature) : List (Option JsProp) :=
  let props := propsOf f
  [f.id, props "PARCEL_ID", props "PARCELID", props "PARCEL", props "LOTPLAN",
   props "LOT_PLAN", props "LOT", props "PLAN", props "OBJECTID", props "ObjectID",
   props "ID", props "Id"]

/-- JavaScript `s.trim()`: strip whitespace from both ends. -/
def jsTrim (s : String) : String :=
  ⟨((s.data.dropWhile Char.isWhitespace).reverse.dropWhile Char.isWhitespace).reverse⟩

/-- The filter of `getParcelId`:
`v !== undefined && v !== null && String(v).trim() !== ''`
(the `undefined` case is handled by the `Option` at the call site). -/
def idQualifies : JsProp → Bool
  | .nullv => false
  | v => decide (jsTrim (jsPropToString v) ≠ "")

/-- The head of the filtered candidate list of `getParcelId`, when present. -/
def firstIdCandidate (f : RawFeature) : Option JsProp :=
  (parcelIdCandidates f).findSome? (fun c => Option.filter idQualifies c)

/-- `getParcelId(feature, index)`: the stringified first qualifying candidate,
falling back to `parcel_<index>`. -/
def getParcelId (f : RawFeature) (index : Nat) : String :=
  match firstIdCandidate f with
  | some v => jsPropToString v
  | none => "parcel_" ++ Nat.repr index

/-- `getParcelLabel(feature, pid)`: `` `${lot}/${plan}` `` when both `LOT` and
`PLAN` are truthy, otherwise the given identifier. -/
def getParcelLabel (f : RawFeature) (pid : String) : String :=
  let lot := propsOf f "LOT"
  let plan := propsOf f "PLAN"
  if truthyOpt lot && truthyOpt plan then templStr lot ++ "/" ++ templStr plan
  else pid

/-- The identifier list produced by the `cadastralFeatures` construction
`(geojson.features || []).map((f, i) => ... getParcelId(f, i) ...)`,
generalised over the starting index. -/
def derivedIdsFrom (k : Nat) : List RawFeature → List String
  | [] => []
  | f :: fs => getParcelId f k :: derivedIdsFrom (k + 1) fs

/-! Spec-side restatement of the identifier rule, used for the refinement
claim about `getParcelId`. -/

/-- Modelled from the spec's words: the first candidate that is neither
undefined nor null nor empty after trimming, stringified. -/
def specFirstQualifying : List (Option JsProp) → Option String
  | [] => none
  | none :: cs => specFirstQualifying cs
  | some v :: cs =>
    if v ≠ JsProp.nullv ∧ jsTrim (jsPropToString v) ≠ "" then some (jsPropToString v)
    else specFirstQualifying cs

/-- Modelled from the spec's words: identifier derivation via the candidate
priority order (top-level id, then PARCEL_ID, PARCELID, PARCEL, LOTPLAN,
LOT_PLAN, LOT, PLAN, OBJECTID, ObjectID, ID, Id), fallback `parcel_<i>`. -/
def specIdentifier (f : RawFeature) (i : Nat) : String :=
  let props := propsOf f
  (specFirstQualifying
    [f.id, props "PARCEL_ID", props "PARCELID", props "PARCEL", props "LOTPLAN",
     props "LOT_PLAN", props "LOT", props "PLAN", props "OBJECTID", props "ObjectID",
     props "ID", props "Id"]).getD ("parcel_" ++ Nat.repr i)


/-! ## Typed model of the geometry pipeline

Coordinates are rationals (the idealisation of the JS 64-bit floats); the
structure of every function mirrors the source. -/

/-- A coordinate pair in GeoJSON order: `(x, y) = (lng, lat)`. -/
abbrev Point : Type := ℚ × ℚ

/-- The crossing test of one loop iteration of `pointInRing`:
`((yi > y) !== (yj > y)) && (x < (xj - xi) * (y - yi) / ((yj - yi) || 1e-12) + xi)`
(a zero denominator is replaced by `1e-12`, mirroring the `||` guard). -/
def edgeCross (x y xi yi xj yj : ℚ) : Bool :=
  (decide (yi > y) != decide (yj > y)) &&
    decide (x < (xj - xi) * (y - yi) / (if yj - yi = 0 then (1e-12 : ℚ) else yj - yi) + xi)

/-- The crossing test applied to an edge `(prev, cur) = (ring[j], ring[i])`. -/
def crossBit (pt : Point) (e : Point × Point) : Bool :=
  edgeCross pt.1 pt.2 e.2.1 e.2.2 e.1.1 e.1.2

/-- The edges traversed by the loop of `pointInRing`: pairs
`(ring[j], ring[i])` for `i = 0, …, n-1` with `j = i-1` (wrapping to `n-1`
for `i = 0`); `zip` truncates the prepended predecessor list to length `n`. -/
def ringEdges (ring : List Point) : List (Point × Point) :=
  match ring with
  | [] => []
  | v :: _ => ((ring.getLastD v) :: ring).zip ring

/-- `pointInRing(pt, ring)`: ray casting, flipping `inside` on every crossing
edge; an empty ring yields `false`. -/
def pointInRing (pt : Point) (ring : List Point) : Bool :=
  (ringEdges ring).foldl (fun inside e => if crossBit pt e then !inside else inside) false

/-- The variant of `edgeCross` with the exact denominator `yj - yi`
(no `|| 1e-12` guard), used for the claim about the guard. -/
def edgeCrossExact (x y xi yi xj yj : ℚ) : Bool :=
  (decide (yi > y) != decide (yj > y)) &&
    decide (x < (xj - xi) * (y - yi) / (yj - yi) + xi)

/-- `pointInRing` with the exact denominator. -/
def pointInRingExact (pt : Point) (ring : List Point) : Bool :=
  (ringEdges ring).foldl
    (fun inside e =>
      if edgeCrossExact pt.1 pt.2 e.2.1 e.2.2 e.1.1 e.1.2 then !inside else inside) false

/-- A geometry value: `Polygon` (outer ring then holes), `MultiPolygon`, or
any other geometry kind (`Point`, `LineString`, …) carrying its coordinate
pairs only for the bounding-box walk. -/
inductive Geometry where
  | polygon (rings : List (List Point))
  | multiPolygon (polys : List (List (List Point)))
  | other (points : List Point)
deriving DecidableEq

/-- The hole loop of `pointInPolygon` (`i = 1 …`): true iff some hole
contains the point (the source then returns `false`). -/
def pointInHoles (pt : Point) : List (List Point) → Bool
  | [] => false
  | h :: hs => if pointInRing pt h then true else pointInHoles pt hs

/-- `pointInPolygon(pt, polygonCoords)`: false for an empty ring list, else
inside the outer ring and in no hole. -/
def pointInPolygon (pt : Point) (polygonCoords : List (List Point)) : Bool :=
  match polygonCoords with
  | [] => false
  | outer :: holes => if !pointInRing pt outer then false else !pointInHoles pt holes

/-- `pointInGeometry(pt, geom)`: dispatch on the geometry kind; any kind other
than `Polygon` / `MultiPolygon` is never contained. -/
def pointInGeometry (pt : Point) : Geometry → Bool
  | .polygon coords => pointInPolygon pt coords
  | .multiPolygon coords => coords.any (fun poly => pointInPolygon pt poly)
  | .other _ => false

/-- Modelled from the spec: a Polygon contains the point iff it is inside
ring 0 (outer) and not inside any of rings 1..n (holes). -/
def specPolygonContains (pt : Point) (rings : List (List Point)) : Bool :=
  match rings with
  | [] => false
  | outer :: holes => pointInRing pt outer && holes.all (fun h => !pointInRing pt h)

/-- Modelled from the spec: containment per geometry kind (MultiPolygon:
some member contains; other kinds: never). -/
def specGeometryContains (pt : Point) : Geometry → Bool
  | .polygon rings => specPolygonContains pt rings
  | .multiPolygon polys => polys.any (fun p => specPolygonContains pt p)
  | .other _ => false

/-- The running min/max state of `bboxOfCoords`; the initial values are the
JS infinities, hence `WithTop` / `WithBot`. -/
structure BBox where
  minX : WithTop ℚ
  minY : WithTop ℚ
  maxX : WithBot ℚ
  maxY : WithBot ℚ
deriving DecidableEq

/-- `[Infinity, Infinity, -Infinity, -Infinity]`. -/
def bboxInit : BBox := ⟨⊤, ⊤, ⊥, ⊥⟩

/-- One `walk` step of `bboxOfCoords` on a coordinate pair. -/
def bboxAdd (bb : BBox) (p : Point) : BBox :=
  ⟨min bb.minX (p.1 : ℚ), min bb.minY (p.2 : ℚ), max bb.maxX (p.1 : ℚ), max bb.maxY (p.2 : ℚ)⟩

/-- All coordinate pairs of a geometry in depth-first order, as visited by
the recursive `walk` of `bboxOfCoords`. -/
def geometryPoints : Geometry → List Point
  | .polygon rings => rings.flatten
  | .multiPolygon polys => (polys.map List.flatten).flatten
  | .other pts => pts

/-- `bboxOfCoords(coords)` on a well-formed geometry. -/
def bboxOfCoords (g : Geometry) : BBox :=
  (geometryPoints g).foldl bboxAdd bboxInit

/-- The skip test of `findParcelFeatureAtLatLng`:
`pt[0] < bb[0] || pt[0] > bb[2] || pt[1] < bb[1] || pt[1] > bb[3]`. -/
def outsideBBox (pt : Point) (bb : BBox) : Bool :=
  decide ((pt.1 : WithTop ℚ) < bb.minX) || decide (bb.maxX < (pt.1 : WithBot ℚ)) ||
    decide ((pt.2 : WithTop ℚ) < bb.minY) || decide (bb.maxY < (pt.2 : WithBot ℚ))

/-- A loaded parcel feature in the typed model: the derived identifier and
the optional geometry (`none` models a falsy `feature.geometry`). -/
structure Feature where
  pid : String
  geometry : Option Geometry
deriving DecidableEq

/-- The containment test a feature is subjected to in the lookup loop. -/
def featureContains (pt : Point) (f : Feature) : Bool :=
  match f.geometry with
  | some g => pointInGeometry pt g
  | none => false

/-- `findParcelFeatureAtLatLng`, after the latlng → point conversion: iterate
features in order, skip absent geometry, skip when outside the bounding box,
return the first feature whose geometry contains the point. -/
def findParcelFeatureAtPt (pt : Point) : List Feature → Option Feature
  | [] => none
  | f :: fs =>
    match f.geometry with
    | none => findParcelFeatureAtPt pt fs
    | some g =>
      if outsideBBox pt (bboxOfCoords g) then findParcelFeatureAtPt pt fs
      else if pointInGeometry pt g then some f
      else findParcelFeatureAtPt pt fs

/-- The same lookup with the bounding-box skip removed. -/
def findParcelFeatureNoBBox (pt : Point) : List Feature → Option Feature
  | [] => none
  | f :: fs =>
    match f.geometry with
    | none => findParcelFeatureNoBBox pt fs
    | some g =>
      if pointInGeometry pt g then some f
      else findParcelFeatureNoBBox pt fs

/-- A Leaflet latitude/longitude pair. -/
structure LatLng where
  lat : ℚ
  lng : ℚ
deriving DecidableEq

/-- `latLngToPoint(ll) = [ll.lng, ll.lat]` (GeoJSON order). -/
def latLngToPoint (ll : LatLng) : Point := (ll.lng, ll.lat)

/-- A drawn Leaflet layer as seen by `layerCentroidLatLng`: a marker exposes
`getLatLng`, other shapes expose `getBounds` (southwest, northeast). -/
structure Layer where
  latLng : Option LatLng
  bounds : Option (LatLng × LatLng)
deriving DecidableEq

/-- `layerCentroidLatLng(layer)`: the marker position, else the center of the
bounding envelope, else nothing. -/
def layerCentroidLatLng (layer : Layer) : Option LatLng :=
  match layer.latLng with
  | some ll => some ll
  | none =>
    match layer.bounds with
    | some (sw, ne) => some ⟨(sw.lat + ne.lat) / 2, (sw.lng + ne.lng) / 2⟩
    | none => none

/-- The geometry-kind check of the snap handler:
`geometry?.type === 'Polygon' || geometry?.type === 'MultiPolygon'`. -/
def isAreaGeometry : Geometry → Bool
  | .polygon _ => true
  | .multiPolygon _ => true
  | .other _ => false

/-- The snap resolution of the `L.Draw.Event.CREATED` handler (with snapping
enabled): compute the representative point, look up the containing parcel,
and return its geometry when it is an area geometry. -/
def resolveSnap (fs : List Feature) (layer : Layer) : Option Geometry :=
  match layerCentroidLatLng layer with
  | none => none
  | some c =>
    match findParcelFeatureAtPt (latLngToPoint c) fs with
    | none => none
    | some f =>
      match f.geometry with
      | some g => if isAreaGeometry g then some g else none
      | none => none

/-- All rings of a geometry (used by the bounding-box correctness proof). -/
def ringsOf : Geometry → List (List Point)
  | .polygon rings => rings
  | .multiPolygon polys => polys.flatten
  | .other _ => []

/-- The alternating chain of crossing flips along consecutive edges, starting
from a given predecessor vertex (proof-side view of the `pointInRing` loop). -/
def ringChain (pt : Point) (prev : Point) : List Point → Bool
  | [] => false
  | v :: vs => Bool.xor (crossBit pt (prev, v)) (ringChain pt v vs)

/-- The per-vertex flag `yi > y` consulted by the crossing test. -/
def bFlag (pt : Point) (w : Point) : Bool := decide (w.2 > pt.2)

/-! ## Fixtures for the geometry claims -/

/-- The outer ring of the square parcel of the spec scenario. -/
def ringA : List Point := [(0, 0), (0, 10), (10, 10), (10, 0)]

/-- The square parcel geometry: one outer ring, no holes. -/
def squareGeom : Geometry := .polygon [ringA]

/-- The square parcel feature with identifier `"A"`. -/
def featA : Feature := ⟨"A", some squareGeom⟩

/-- A drawn marker at latitude 5, longitude 5. -/
def marker55 : Layer := ⟨some ⟨5, 5⟩, none⟩

/-- A triangle ring used as a concrete witness input. -/
def ringW : List Point := [(0, 0), (4, 0), (0, 4)]

/-! ## Injectivity of the decimal representation of naturals

Needed to show that the fallback identifiers `parcel_<i>` are pairwise
distinct across indices. -/

/-- Value of a decimal digit character. -/
def decDigitVal (c : Char) : Nat := c.toNat - 48

/-- Value of a decimal digit string, most significant digit first. -/
def decValue (l : List Char) : Nat :=
  l.foldl (fun a c => 10 * a + decDigitVal c) 0

/-! ## Fixtures for the identifier and label claims -/

/-- A feature whose only identifying property is `PARCEL_ID = "7"`. -/
def exPid7 : RawFeature :=
  ⟨none, some fun k => if k = "PARCEL_ID" then some (.str "7") else none⟩

/-- A feature with no identifying properties at all. -/
def exEmpty : RawFeature := ⟨none, some fun _ => none⟩

/-- A feature with `LOT = "12"` and `PLAN = "DP4567"`. -/
def exLotPlan : RawFeature :=
  ⟨none, some fun k =>
    if k = "LOT" then some (.str "12")
    else if k = "PLAN" then some (.str "DP4567") else none⟩

/-! ## Dynamically-typed model: JavaScript values and TypeErrors

The geometry helpers receive whatever `geojson.features` contains; this layer
models them over JSON-derived JavaScript values, with `Except.error` for a
raised `TypeError`, to settle the totality claims and the behaviour on
malformed coordinates. -/

/-- A JSON-derived JavaScript value occurring in `geometry.coordinates`:
a number, an array, `null`, or `undefined` (an absent field). -/
inductive JsVal where
  | num (q : ℚ)
  | arr (xs : List JsVal)
  | null
  | undef

/-- `c[i]`: indexing `null` or `undefined` raises a TypeError; indexing a
number yields `undefined`; indexing an array out of range yields
`undefined`. -/
def jsIdx : JsVal → Nat → Except Unit JsVal
  | .arr xs, i => .ok (xs.getD i .undef)
  | .num _, _ => .ok .undef
  | .null, _ => .error ()
  | .undef, _ => .error ()

/-- JavaScript `ToNumber` coercion of the values in scope (`none` is NaN):
numbers are themselves, `undefined` is NaN, `null` is 0, `[]` is 0, a
one-element array coerces through its element (`[null]` and `[undefined]`
stringify to `""`, hence 0), a longer array stringifies with a comma, hence
NaN. -/
def toNum : JsVal → Option ℚ
  | .num q => some q
  | .undef => none
  | .null => some 0
  | .arr [] => some 0
  | .arr [x] =>
    match x with
    | .null => some 0
    | .undef => some 0
    | _ => toNum x
  | .arr (_ :: _ :: _) => none

/-- NaN-propagating subtraction. -/
def optSub : Option ℚ → Option ℚ → Option ℚ
  | some x, some y => some (x - y)
  | _, _ => none

/-- NaN-propagating multiplication (0 * NaN is NaN in JS). -/
def optMul : Option ℚ → Option ℚ → Option ℚ
  | some x, some y => some (x * y)
  | _, _ => none

/-- NaN-propagating addition. -/
def optAdd : Option ℚ → Option ℚ → Option ℚ
  | some x, some y => some (x + y)
  | _, _ => none

/-- `a > y` with ToNumber semantics: false when `a` is NaN. -/
def optGtB (a : Option ℚ) (y : ℚ) : Bool :=
  match a with
  | some q => decide (q > y)
  | none => false

/-- `x < b`: false when `b` is NaN. -/
def optLtB (x : ℚ) (b : Option ℚ) : Bool :=
  match b with
  | some q => decide (x < q)
  | none => false

/-- `(yj - yi) || 1e-12`: a falsy denominator (0 or NaN) becomes the
epsilon, so the division denominator is always a nonzero rational. -/
def guardDenom : Option ℚ → ℚ
  | some d => if d = 0 then (1e-12 : ℚ) else d
  | none => (1e-12 : ℚ)

/-- Division of a possibly-NaN numerator by the guarded denominator. -/
def optDivQ (a : Option ℚ) (d : ℚ) : Option ℚ := a.map (fun x => x / d)

/-- One iteration of the `pointInRing` loop over JS values: fetch
`ring[i][0]`, `ring[i][1]`, `ring[j][0]`, `ring[j][1]` (possibly raising a
TypeError), evaluate the crossing condition under ToNumber coercion, and flip
`inside` on a crossing. -/
def ringStepJs (pt : ℚ × ℚ) (vs : List JsVal) (inside : Bool) (i : Nat) :
    Except Unit Bool := do
  let j := if i = 0 then vs.length - 1 else i - 1
  let vi := vs.getD i .undef
  let vj := vs.getD j .undef
  let xi ← jsIdx vi 0
  let yi ← jsIdx vi 1
  let xj ← jsIdx vj 0
  let yj ← jsIdx vj 1
  let nyi := toNum yi
  let nyj := toNum yj
  let c1 := optGtB nyi pt.2 != optGtB nyj pt.2
  let c2 := optLtB pt.1 (optAdd (optDivQ (optMul (optSub (toNum xj) (toNum xi))
    (optSub (some pt.2) nyi)) (guardDenom (optSub nyj nyi))) (toNum xi))
  pure (if c1 && c2 then !inside else inside)

/-- `pointInRing` over JS values: `ring.length` on `null`/`undefined` raises;
on a number it is `undefined`, so the loop never runs. -/
def pointInRingJs (pt : ℚ × ℚ) (ring : JsVal) : Except Unit Bool :=
  match ring with
  | .null => .error ()
  | .undef => .error ()
  | .num _ => .ok false
  | .arr vs => (List.range vs.length).foldlM (ringStepJs pt vs) false

/-- The hole loop of `pointInPolygon` over JS values. -/
def pointInHolesJs (pt : ℚ × ℚ) : List JsVal → Except Unit Bool
  | [] => .ok false
  | h :: hs => do
    let b ← pointInRingJs pt h
    if b then pure true else pointInHolesJs pt hs

/-- `pointInPolygon` over JS values: falsy coordinates, or coordinates whose
`.length` is falsy (a number, an empty array), return false outright. -/
def pointInPolygonJs (pt : ℚ × ℚ) (polygonCoords : JsVal) : Except Unit Bool :=
  match polygonCoords with
  | .arr [] => .ok false
  | .arr (outer :: holes) => do
    let b ← pointInRingJs pt outer
    if !b then pure false
    else do
      let hh ← pointInHolesJs pt holes
      pure !hh
  | _ => .ok false

/-- A GeoJSON geometry object as a JS value: a `type` string and raw
`coordinates` (an absent `coordinates` field is `JsVal.undef`). -/
structure GeomJs where
  type : String
  coordinates : JsVal

/-- `coordinates.some(poly => pointInPolygon(pt, poly))` with early exit. -/
def anyPolyJs (pt : ℚ × ℚ) : List JsVal → Except Unit Bool
  | [] => .ok false
  | p :: ps => do
    let b ← pointInPolygonJs pt p
    if b then pure true else anyPolyJs pt ps

/-- `pointInGeometry` over JS values: `.some` on a non-array `coordinates`
raises a TypeError; unknown kinds return false. -/
def pointInGeometryJs (pt : ℚ × ℚ) (g : GeomJs) : Except Unit Bool :=
  if g.type = "Polygon" then pointInPolygonJs pt g.coordinates
  else if g.type = "MultiPolygon" then
    match g.coordinates with
    | .arr polys => anyPolyJs pt polys
    | _ => .error ()
  else .ok false

/-- The `typeof c[0] === 'number' && typeof c[1] === 'number'` test of `walk`,
returning the coordinate pair when it holds. -/
def headPair : List JsVal → Option (ℚ × ℚ)
  | .num a :: .num b :: _ => some (a, b)
  | _ => none

mutual
/-- The recursive `walk` of `bboxOfCoords` over a JS value: a number-pair
array updates the box; any other array recurses into its elements
(`c.forEach(walk)`); any non-array raises a TypeError (`c[0]` on
`null`/`undefined`, otherwise `c.forEach` is not a function). -/
def walkBBox : JsVal → BBox → Except Unit BBox
  | .null, _ => .error ()
  | .undef, _ => .error ()
  | .num _, _ => .error ()
  | .arr xs, bb =>
    match headPair xs with
    | some p => .ok (bboxAdd bb p)
    | none => walkBBoxList xs bb

/-- `forEach(walk)` over the elements of an array node. -/
def walkBBoxList : List JsVal → BBox → Except Unit BBox
  | [], bb => .ok bb
  | x :: xs, bb => do
    let bb2 ← walkBBox x bb
    walkBBoxList xs bb2
end

/-- `bboxOfCoords(coords)` over a JS value. -/
def bboxOfCoordsJs (c : JsVal) : Except Unit BBox := walkBBox c bboxInit

/-- A loaded feature in the JS-value model. -/
structure FeatureJs where
  pid : String
  geometry : Option GeomJs

/-- `findParcelFeatureAtLatLng` over JS values (after the latlng → point
conversion): skip falsy geometry, compute the bounding box (which may raise),
skip when outside it, and return the first containing feature. -/
def findContainingJs (pt : ℚ × ℚ) : List FeatureJs → Except Unit (Option FeatureJs)
  | [] => .ok none
  | f :: fs =>
    match f.geometry with
    | none => findContainingJs pt fs
    | some g => do
      let bb ← bboxOfCoordsJs g.coordinates
      if outsideBBox pt bb then findContainingJs pt fs
      else do
        let b ← pointInGeometryJs pt g
        if b then pure (some f) else findContainingJs pt fs

/-- The same lookup with the bounding-box skip removed. -/
def findContainingNoBBoxJs (pt : ℚ × ℚ) : List FeatureJs → Except Unit (Option FeatureJs)
  | [] => .ok none
  | f :: fs =>
    match f.geometry with
    | none => findContainingNoBBoxJs pt fs
    | some g => do
      let b ← pointInGeometryJs pt g
      if b then pure (some f) else findContainingNoBBoxJs pt fs

/-- The snap resolution of the CREATED handler over JS values. -/
def resolveJs (fs : List FeatureJs) (layer : Layer) : Except Unit (Option GeomJs) :=
  match layerCentroidLatLng layer with
  | none => .ok none
  | some c => do
    let r ← findContainingJs (latLngToPoint c) fs
    match r with
    | some f =>
      match f.geometry with
      | some g =>
        if g.type = "Polygon" || g.type = "MultiPolygon" then pure (some g)
        else pure none
      | none => pure none
    | none => pure none

/-! Well-formedness predicates: the structural shape under which the dynamic
code stays within the graceful paths. -/

/-- A well-formed vertex: an array whose first two elements are numbers. -/
def isWFVert (v : JsVal) : Bool :=
  match v with
  | .arr xs => (headPair xs).isSome
  | _ => false

/-- A well-formed ring: an array of well-formed vertices. -/
def isWFRing (r : JsVal) : Bool :=
  match r with
  | .arr vs => vs.all isWFVert
  | _ => false

/-- A well-formed Polygon coordinate value: an array of well-formed rings. -/
def isWFPoly (p : JsVal) : Bool :=
  match p with
  | .arr rs => rs.all isWFRing
  | _ => false

/-- A well-formed MultiPolygon coordinate value. -/
def isWFMulti (m : JsVal) : Bool :=
  match m with
  | .arr ps => ps.all isWFPoly
  | _ => false

mutual
/-- The values on which the `walk` of `bboxOfCoords` succeeds: a number-pair
array, or an array all of whose elements are walkable. -/
def isWalkable : JsVal → Bool
  | .arr xs => (headPair xs).isSome || listWalkable xs
  | _ => false

/-- All elements walkable. -/
def listWalkable : List JsVal → Bool
  | [] => true
  | x :: xs => isWalkable x && listWalkable xs
end

/-- Well-formedness relative to the geometry kind: Polygon and MultiPolygon
coordinates have their structural shape; any other kind only needs walkable
coordinates (its containment test never touches them). -/
def isWFGeom (g : GeomJs) : Bool :=
  if g.type = "Polygon" then isWFPoly g.coordinates
  else if g.type = "MultiPolygon" then isWFMulti g.coordinates
  else isWalkable g.coordinates

/-- A well-formed feature: absent geometry, or well-formed coordinates. -/
def isWFFeature (f : FeatureJs) : Bool :=
  match f.geometry with
  | none => true
  | some g => isWFGeom g

/-! Fixtures for the dynamic layer. -/

/-- A feature whose geometry is present but whose `coordinates` field is
absent. -/
def featNoCoords : FeatureJs := ⟨"bad", some ⟨"Polygon", .undef⟩⟩

/-- A Polygon whose single ring is the number-pair-like array
`[1, 2, null]`: the bounding-box walk accepts it as the coordinate pair
`(1, 2)`, but the ray-casting loop indexes the `null`. -/
def featNullVert : FeatureJs :=
  ⟨"trap", some ⟨"Polygon", .arr [.arr [.num 1, .num 2, .null]]⟩⟩

/-- The square parcel in the JS-value model. -/
def featAJs : FeatureJs :=
  ⟨"A", some ⟨"Polygon", .arr [.arr [.arr [.num 0, .num 0], .arr [.num 0, .num 10],
    .arr [.num 10, .num 10], .arr [.num 10, .num 0]]]⟩⟩

theorem decDigitVal_digitChar : ∀ d : Nat, d < 10 → decDigitVal (Nat.digitChar d) = d := by
  decide

theorem toDigitsCore_append (fuel n : Nat) :
    ∀ ds₁ ds₂ : List Char,
      Nat.toDigitsCore 10 fuel n (ds₁ ++ ds₂) = Nat.toDigitsCore 10 fuel n ds₁ ++ ds₂ := by
  induction fuel generalizing n with
  | zero => intro ds₁ ds₂; rfl
  | succ fuel ih =>
    intro ds₁ ds₂
    simp only [Nat.toDigitsCore]
    by_cases h : n / 10 = 0
    · simp [h]
    · simp only [h, if_false]
      exact ih (n / 10) (Nat.digitChar (n % 10) :: ds₁) ds₂

theorem decValue_append_singleton (l : List Char) (c : Char) :
    decValue (l ++ [c]) = 10 * decValue l + decDigitVal c := by
  simp [decValue, List.foldl_append]

theorem decValue_toDigitsCore (fuel : Nat) :
    ∀ n : Nat, n < 10 ^ fuel → decValue (Nat.toDigitsCore 10 fuel n []) = n := by
  induction fuel with
  | zero =>
    intro n hn
    interval_cases n
    rfl
  | succ fuel ih =>
    intro n hn
    simp only [Nat.toDigitsCore]
    by_cases h : n / 10 = 0
    · have hlt : n < 10 := by omega
      simp only [h, if_true]
      have : decValue [Nat.digitChar (n % 10)] = decDigitVal (Nat.digitChar (n % 10)) := by
        simp [decValue]
      rw [this, decDigitVal_digitChar (n % 10) (Nat.mod_lt n (by norm_num)),
        Nat.mod_eq_of_lt hlt]
    · simp only [h, if_false]
      have hdiv : n / 10 < 10 ^ fuel := by
        rw [Nat.div_lt_iff_lt_mul (by norm_num : 0 < 10)]
        calc n < 10 ^ (fuel + 1) := hn
        _ = 10 ^ fuel * 10 := by ring
      have happ : Nat.toDigitsCore 10 fuel (n / 10) [Nat.digitChar (n % 10)] =
          Nat.toDigitsCore 10 fuel (n / 10) [] ++ [Nat.digitChar (n % 10)] := by
        have := toDigitsCore_append fuel (n / 10) [] [Nat.digitChar (n % 10)]
        simpa using this
      rw [happ, decValue_append_singleton, ih (n / 10) hdiv,
        decDigitVal_digitChar (n % 10) (Nat.mod_lt n (by norm_num))]
      omega

theorem decValue_toDigits (n : Nat) : decValue (Nat.toDigits 10 n) = n := by
  have hfuel : n < 10 ^ (n + 1) := by
    calc n < 2 ^ n := Nat.lt_two_pow n
    _ ≤ 10 ^ n := Nat.pow_le_pow_left (by norm_num) n
    _ ≤ 10 ^ (n + 1) := Nat.pow_le_pow_right (by norm_num) (Nat.le_succ n)
  exact decValue_toDigitsCore (n + 1) n hfuel

theorem natRepr_injective : Function.Injective Nat.repr := by
  intro m n h
  have hdata : Nat.toDigits 10 m = Nat.toDigits 10 n := by
    have := congrArg String.data h
    simpa [Nat.repr, List.asString] using this
  have := congrArg decValue hdata
  rwa [decValue_toDigits, decValue_toDigits] at this

theorem parcelFallback_injective (i j : Nat) :
    "parcel_" ++ Nat.repr i = "parcel_" ++ Nat.repr j → i = j := by
  intro h
  have hdata := congrArg String.data h
  simp only [String.data_append] at hdata
  have h2 : (Nat.repr i).data = (Nat.repr j).data := List.append_cancel_left hdata
  exact natRepr_injective (String.ext h2)


/-! ## Helper lemmas about the identifier derivation -/

theorem idQualifies_iff (v : JsProp) :
    idQualifies v = true ↔ (v ≠ JsProp.nullv ∧ jsTrim (jsPropToString v) ≠ "") := by
  cases v <;> simp [idQualifies]

theorem firstQualifying_eq (l : List (Option JsProp)) :
    (l.findSome? (fun c => Option.filter idQualifies c)).map jsPropToString
      = specFirstQualifying l := by
  induction l with
  | nil => rfl
  | cons c cs ih =>
    cases c with
    | none => simpa [specFirstQualifying, Option.filter] using ih
    | some v =>
      by_cases hq : idQualifies v = true
      · rw [specFirstQualifying]
        rw [if_pos ((idQualifies_iff v).mp hq)]
        simp [Option.filter, hq]
      · rw [specFirstQualifying]
        rw [if_neg (fun hc => hq ((idQualifies_iff v).mpr hc))]
        simpa [Option.filter, hq] using ih

theorem getParcelId_eq_map_getD (f : RawFeature) (i : Nat) :
    getParcelId f i =
      ((firstIdCandidate f).map jsPropToString).getD ("parcel_" ++ Nat.repr i) := by
  unfold getParcelId
  cases firstIdCandidate f <;> rfl

theorem derivedIdsFrom_length (k : Nat) (fs : List RawFeature) :
    (derivedIdsFrom k fs).length = fs.length := by
  induction fs generalizing k with
  | nil => rfl
  | cons f fs ih => simp [derivedIdsFrom, ih]

theorem derivedIdsFrom_get (fs : List RawFeature) (k i : Nat) (hi : i < fs.length)
    (hi2 : i < (derivedIdsFrom k fs).length) :
    (derivedIdsFrom k fs).get ⟨i, hi2⟩ = getParcelId (fs.get ⟨i, hi⟩) (k + i) := by
  induction fs generalizing k i with
  | nil => cases hi
  | cons f fs ih =>
    cases i with
    | zero => rfl
    | succ i =>
      have hi' : i < fs.length := Nat.lt_of_succ_lt_succ hi
      have hi2' : i < (derivedIdsFrom (k + 1) fs).length := by
        rw [derivedIdsFrom_length]; exact hi'
      have := ih (k + 1) i hi' hi2'
      simpa [derivedIdsFrom, Nat.add_assoc, Nat.add_comm 1 i] using this

/-! ## Claim C6 -/

/-- C6: the derived identifier is the string form of the first candidate in
priority order (top-level id, then PARCEL_ID, PARCELID, PARCEL, LOTPLAN,
LOT_PLAN, LOT, PLAN, OBJECTID, ObjectID, ID, Id) that is neither undefined
nor null nor empty after trimming, with fallback `parcel_<i>`; a feature with
`properties.PARCEL_ID = "7"` and no top-level id gets identifier `"7"`, and a
feature with no identifying properties at index 3 gets `"parcel_3"`. -/
theorem C6_identifier_derivation :
    (∀ f i, getParcelId f i = specIdentifier f i)
    ∧ getParcelId exPid7 0 = "7"
    ∧ getParcelId exEmpty 3 = "parcel_3" := by
  refine ⟨fun f i => ?_, by decide, by decide⟩
  rw [getParcelId_eq_map_getD]
  unfold specIdentifier firstIdCandidate parcelIdCandidates
  rw [firstQualifying_eq]

/-! ## Claim C8 (corrected) -/

/-- C8 as stated is false: two features sharing `PARCEL_ID = "7"` both derive
identifier `"7"`, so the loaded identifiers are not pairwise distinct. -/
theorem C8_counterexample :
    ¬ (derivedIdsFrom 0 [exPid7, exPid7]).Nodup := by
  decide

/-- C8 amended: the derived identifiers are pairwise distinct provided that
distinct features do not share an equal stringified first qualifying
candidate, and that no stringified candidate collides with a fallback
identifier of the form `parcel_<j>`; in particular features without any
qualifying candidate always receive pairwise distinct fallback identifiers. -/
theorem C8_unique_ids_amended (fs : List RawFeature)
    (hcand : ∀ i j : Fin fs.length, i.1 ≠ j.1 → ∀ v w : JsProp,
      firstIdCandidate (fs.get i) = some v → firstIdCandidate (fs.get j) = some w →
      jsPropToString v ≠ jsPropToString w)
    (hfall : ∀ i : Fin fs.length, ∀ v : JsProp, ∀ j : Nat,
      firstIdCandidate (fs.get i) = some v →
      jsPropToString v ≠ "parcel_" ++ Nat.repr j) :
    (derivedIdsFrom 0 fs).Nodup := by
  rw [List.Nodup, List.pairwise_iff_get]
  intro i j hij
  have hi : i.1 < fs.length := by
    have h1 := i.2; have h2 := derivedIdsFrom_length 0 fs; omega
  have hj : j.1 < fs.length := by
    have h1 := j.2; have h2 := derivedIdsFrom_length 0 fs; omega
  have hgi : (derivedIdsFrom 0 fs).get i = getParcelId (fs.get ⟨i.1, hi⟩) (0 + i.1) :=
    derivedIdsFrom_get fs 0 i.1 hi i.2
  have hgj : (derivedIdsFrom 0 fs).get j = getParcelId (fs.get ⟨j.1, hj⟩) (0 + j.1) :=
    derivedIdsFrom_get fs 0 j.1 hj j.2
  rw [hgi, hgj]
  have hne : i.1 ≠ j.1 := Nat.ne_of_lt hij
  rcases hci : firstIdCandidate (fs.get ⟨i.1, hi⟩) with _ | v <;>
    rcases hcj : firstIdCandidate (fs.get ⟨j.1, hj⟩) with _ | w
  · -- both fall back to parcel_<index>
    simp only [getParcelId, hci, hcj]
    intro h
    exact hne (by simpa using parcelFallback_injective (0 + i.1) (0 + j.1) h)
  · -- fallback on the left, candidate on the right
    simp only [getParcelId, hci, hcj]
    exact fun h => hfall ⟨j.1, hj⟩ w (0 + i.1) hcj h.symm
  · -- candidate on the left, fallback on the right
    simp only [getParcelId, hci, hcj]
    exact hfall ⟨i.1, hi⟩ v (0 + j.1) hci
  · simp only [getParcelId, hci, hcj]
    exact hcand ⟨i.1, hi⟩ ⟨j.1, hj⟩ hne v w hci hcj

/-- Witness for C8 amended: a concrete index of two candidate-free features
(the same record twice) still gets distinct fallback identifiers. -/
theorem C8_witness : (derivedIdsFrom 0 [exEmpty, exEmpty]).Nodup := by
  apply C8_unique_ids_amended
  · intro i j _ v w hv _
    have hmem : ([exEmpty, exEmpty] : List RawFeature).get i ∈ [exEmpty, exEmpty] :=
      List.get_mem _ i.1 i.2
    have hcases : ([exEmpty, exEmpty] : List RawFeature).get i = exEmpty := by
      rcases List.mem_cons.mp hmem with h | h
      · exact h
      · simpa using h
    rw [hcases] at hv
    have : firstIdCandidate exEmpty = none := by decide
    rw [this] at hv
    cases hv
  · intro i v j hv
    have hmem : ([exEmpty, exEmpty] : List RawFeature).get i ∈ [exEmpty, exEmpty] :=
      List.get_mem _ i.1 i.2
    have hcases : ([exEmpty, exEmpty] : List RawFeature).get i = exEmpty := by
      rcases List.mem_cons.mp hmem with h | h
      · exact h
      · simpa using h
    rw [hcases] at hv
    have : firstIdCandidate exEmpty = none := by decide
    rw [this] at hv
    cases hv

/-! ## Claim C9 -/

/-- C9: when both `LOT` and `PLAN` are present and truthy, the label is
`"<LOT>/<PLAN>"`; otherwise the label equals the given identifier; and
`LOT = "12"`, `PLAN = "DP4567"` yields `"12/DP4567"`. -/
theorem C9_label_derivation :
    (∀ f pid lot plan, propsOf f "LOT" = some lot → propsOf f "PLAN" = some plan →
      truthy lot = true → truthy plan = true →
      getParcelLabel f pid = jsPropToString lot ++ "/" ++ jsPropToString plan)
    ∧ (∀ f pid, (truthyOpt (propsOf f "LOT") = false ∨ truthyOpt (propsOf f "PLAN") = false) →
      getParcelLabel f pid = pid)
    ∧ getParcelLabel exLotPlan "A" = "12/DP4567" := by
  refine ⟨fun f pid lot plan hlot hplan htl htp => ?_, fun f pid h => ?_, by decide⟩
  · unfold getParcelLabel
    rw [hlot, hplan]
    simp [truthyOpt, templStr, htl, htp]
  · unfold getParcelLabel
    rcases h with h | h <;> simp [h]

/-- Witness for C9: its hypotheses hold at the concrete fixtures. -/
theorem C9_witness :
    getParcelLabel exLotPlan "A" = "12/DP4567" ∧ getParcelLabel exEmpty "X" = "X" := by
  constructor
  · exact C9_label_derivation.1 exLotPlan "A" (.str "12") (.str "DP4567")
      (by decide) (by decide) (by decide) (by decide)
  · exact C9_label_derivation.2.1 exEmpty "X" (Or.inl (by decide))

/-! ## The `pointInRing` loop as an alternating chain -/

theorem foldl_cross_zip (pt : Point) :
    ∀ (l : List Point) (prev : Point) (b : Bool),
      ((prev :: l).zip l).foldl (fun inside e => if crossBit pt e then !inside else inside) b
        = Bool.xor b (ringChain pt prev l) := by
  intro l
  induction l with
  | nil => intro prev b; simp [ringChain]
  | cons v vs ih =>
    intro prev b
    rw [List.zip_cons_cons, List.foldl_cons, ringChain, ih v]
    cases hcb : crossBit pt (prev, v) <;> cases b <;> simp

theorem pointInRing_eq_ringChain (pt : Point) (v : Point) (vs : List Point) :
    pointInRing pt (v :: vs) = ringChain pt ((v :: vs).getLastD v) (v :: vs) := by
  unfold pointInRing ringEdges
  rw [foldl_cross_zip]
  simp

theorem getLastD_self_mem {α : Type} (v : α) (vs : List α) (d : α) :
    (v :: vs).getLastD d ∈ v :: vs := by
  induction vs generalizing v d with
  | nil => simp [List.getLastD]
  | cons w ws ih =>
    rw [List.getLastD_cons]
    exact List.mem_cons_of_mem v (ih w v)

theorem ringChain_false_of (pt : Point) (P : Point → Prop)
    (hbit : ∀ a b : Point, P a → P b → crossBit pt (a, b) = false) :
    ∀ (l : List Point) (prev : Point), P prev → (∀ w ∈ l, P w) →
      ringChain pt prev l = false := by
  intro l
  induction l with
  | nil => intro prev _ _; rfl
  | cons v vs ih =>
    intro prev hp hl
    have hv : P v := hl v (List.mem_cons_self v vs)
    rw [ringChain, hbit prev v hp hv,
      ih v hv (fun w hw => hl w (List.mem_cons_of_mem v hw))]
    rfl

theorem ringChain_telescope (pt : Point) (P : Point → Prop)
    (hbit : ∀ a b : Point, P a → P b →
      crossBit pt (a, b) = Bool.xor (bFlag pt a) (bFlag pt b)) :
    ∀ (l : List Point) (prev : Point), P prev → (∀ w ∈ l, P w) →
      ringChain pt prev l = Bool.xor (bFlag pt prev) (bFlag pt (l.getLastD prev)) := by
  intro l
  induction l with
  | nil => intro prev _ _; simp [ringChain]
  | cons v vs ih =>
    intro prev hp hl
    have hv : P v := hl v (List.mem_cons_self v vs)
    rw [ringChain, hbit prev v hp hv,
      ih v hv (fun w hw => hl w (List.mem_cons_of_mem v hw)), List.getLastD_cons]
    cases bFlag pt prev <;> cases bFlag pt v <;> cases bFlag pt (vs.getLastD v) <;> rfl

/-! ## Crossing-bit lemmas -/

theorem edge_flags_cases {y yi yj : ℚ} (h : (decide (yi > y) != decide (yj > y)) = true) :
    (yi > y ∧ yj ≤ y) ∨ (yj > y ∧ yi ≤ y) := by
  by_cases h1 : yi > y
  · by_cases h2 : yj > y
    · simp [h1, h2] at h
    · exact Or.inl ⟨h1, not_lt.mp h2⟩
  · by_cases h2 : yj > y
    · exact Or.inr ⟨h2, not_lt.mp h1⟩
    · simp [h1, h2] at h

theorem edge_flags_den_ne {y yi yj : ℚ}
    (hy : (yi > y ∧ yj ≤ y) ∨ (yj > y ∧ yi ≤ y)) : yj - yi ≠ 0 := by
  rcases hy with ⟨c1, c2⟩ | ⟨c1, c2⟩ <;> intro hc <;> linarith

theorem intersect_le_max (y xi yi xj yj : ℚ)
    (hy : (yi > y ∧ yj ≤ y) ∨ (yj > y ∧ yi ≤ y)) :
    (xj - xi) * (y - yi) / (yj - yi) + xi ≤ max xi xj := by
  rcases hy with ⟨c1, c2⟩ | ⟨c1, c2⟩
  · have hden : yj - yi < 0 := by linarith
    have key : (xj - xi) * (y - yi) / (yj - yi) ≤ max xi xj - xi := by
      rw [div_le_iff_of_neg hden]
      rcases le_total xi xj with hx | hx
      · rw [max_eq_right hx]
        nlinarith
      · rw [max_eq_left hx]
        nlinarith
    linarith
  · have hden : 0 < yj - yi := by linarith
    have key : (xj - xi) * (y - yi) / (yj - yi) ≤ max xi xj - xi := by
      rw [div_le_iff₀ hden]
      rcases le_total xi xj with hx | hx
      · rw [max_eq_right hx]
        nlinarith
      · rw [max_eq_left hx]
        nlinarith
    linarith

theorem min_le_intersect (y xi yi xj yj : ℚ)
    (hy : (yi > y ∧ yj ≤ y) ∨ (yj > y ∧ yi ≤ y)) :
    min xi xj ≤ (xj - xi) * (y - yi) / (yj - yi) + xi := by
  rcases hy with ⟨c1, c2⟩ | ⟨c1, c2⟩
  · have hden : yj - yi < 0 := by linarith
    have key : min xi xj - xi ≤ (xj - xi) * (y - yi) / (yj - yi) := by
      rw [le_div_iff_of_neg hden]
      rcases le_total xi xj with hx | hx
      · rw [min_eq_left hx]
        nlinarith
      · rw [min_eq_right hx]
        nlinarith
    linarith
  · have hden : 0 < yj - yi := by linarith
    have key : min xi xj - xi ≤ (xj - xi) * (y - yi) / (yj - yi) := by
      rw [le_div_iff₀ hden]
      rcases le_total xi xj with hx | hx
      · rw [min_eq_left hx]
        nlinarith
      · rw [min_eq_right hx]
        nlinarith
    linarith

theorem crossBit_false_of_flag (pt a b : Point) (h : bFlag pt a = bFlag pt b) :
    crossBit pt (a, b) = false := by
  unfold crossBit edgeCross
  unfold bFlag at h
  rw [h, bne_self_eq_false, Bool.false_and]

theorem crossBit_false_of_lt (pt a b : Point) (ha : a.1 < pt.1) (hb : b.1 < pt.1) :
    crossBit pt (a, b) = false := by
  unfold crossBit edgeCross
  by_cases h1 : (decide (b.2 > pt.2) != decide (a.2 > pt.2)) = true
  · have hy := edge_flags_cases h1
    have hden := edge_flags_den_ne hy
    rw [if_neg hden]
    have hle := intersect_le_max pt.2 b.1 b.2 a.1 a.2 hy
    have hmax : max b.1 a.1 < pt.1 := max_lt hb ha
    have hnot : ¬ (pt.1 < (a.1 - b.1) * (pt.2 - b.2) / (a.2 - b.2) + b.1) :=
      not_lt.mpr (le_of_lt (lt_of_le_of_lt hle hmax))
    simp [hnot]
  · rw [eq_false_of_ne_true h1, Bool.false_and]

theorem crossBit_xor_of_gt (pt a b : Point) (ha : pt.1 < a.1) (hb : pt.1 < b.1) :
    crossBit pt (a, b) = Bool.xor (bFlag pt a) (bFlag pt b) := by
  unfold crossBit edgeCross
  by_cases h1 : (decide (b.2 > pt.2) != decide (a.2 > pt.2)) = true
  · have hy := edge_flags_cases h1
    have hden := edge_flags_den_ne hy
    rw [if_neg hden]
    have hge := min_le_intersect pt.2 b.1 b.2 a.1 a.2 hy
    have hmin : pt.1 < min b.1 a.1 := lt_min hb ha
    have hcross : pt.1 < (a.1 - b.1) * (pt.2 - b.2) / (a.2 - b.2) + b.1 :=
      lt_of_lt_of_le hmin hge
    rw [h1]
    simp only [Bool.true_and, decide_eq_true hcross]
    unfold bFlag
    have := h1
    cases hA : decide (a.2 > pt.2) <;> cases hB : decide (b.2 > pt.2) <;>
      rw [hA, hB] at this <;> simp at this ⊢
  · have hflag : bFlag pt a = bFlag pt b := by
      unfold bFlag
      have := eq_false_of_ne_true h1
      cases hA : decide (a.2 > pt.2) <;> cases hB : decide (b.2 > pt.2) <;>
        rw [hA, hB] at this <;> simp at this ⊢
    rw [eq_false_of_ne_true h1, Bool.false_and, hflag, Bool.xor_self]

/-! ## `pointInRing` is false outside the ring's bounding box -/

theorem pointInRing_false_of_bits (pt : Point) (P : Point → Prop)
    (hbit : ∀ a b : Point, P a → P b → crossBit pt (a, b) = false)
    (ring : List Point) (hP : ∀ w ∈ ring, P w) : pointInRing pt ring = false := by
  cases ring with
  | nil => rfl
  | cons v vs =>
    rw [pointInRing_eq_ringChain]
    exact ringChain_false_of pt P hbit (v :: vs) _
      (hP _ (getLastD_self_mem v vs v)) hP

theorem pointInRing_false_of_flag_const (pt : Point) (c : Bool) (ring : List Point)
    (h : ∀ w ∈ ring, bFlag pt w = c) : pointInRing pt ring = false :=
  pointInRing_false_of_bits pt (fun w => bFlag pt w = c)
    (fun a b hA hB => crossBit_false_of_flag pt a b (hA.trans hB.symm)) ring h

theorem pointInRing_false_right (pt : Point) (ring : List Point)
    (h : ∀ w ∈ ring, w.1 < pt.1) : pointInRing pt ring = false :=
  pointInRing_false_of_bits pt (fun w => w.1 < pt.1)
    (fun a b hA hB => crossBit_false_of_lt pt a b hA hB) ring h

theorem pointInRing_false_left (pt : Point) (ring : List Point)
    (h : ∀ w ∈ ring, pt.1 < w.1) : pointInRing pt ring = false := by
  cases ring with
  | nil => rfl
  | cons v vs =>
    rw [pointInRing_eq_ringChain]
    rw [ringChain_telescope pt (fun w => pt.1 < w.1)
      (fun a b hA hB => crossBit_xor_of_gt pt a b hA hB) (v :: vs) _
      (h _ (getLastD_self_mem v vs v)) h]
    rw [List.getLastD_cons, List.getLastD_cons]
    exact Bool.xor_self _

theorem pointInRing_false_above (pt : Point) (ring : List Point)
    (h : ∀ w ∈ ring, w.2 < pt.2) : pointInRing pt ring = false := by
  apply pointInRing_false_of_flag_const pt false
  intro w hw
  unfold bFlag
  exact decide_eq_false (not_lt.mpr (le_of_lt (h w hw)))

theorem pointInRing_false_below (pt : Point) (ring : List Point)
    (h : ∀ w ∈ ring, pt.2 < w.2) : pointInRing pt ring = false := by
  apply pointInRing_false_of_flag_const pt true
  intro w hw
  unfold bFlag
  exact decide_eq_true (h w hw)

/-! ## Bounding boxes dominate every coordinate -/

theorem bboxAdd_foldl_minX (pts : List Point) :
    ∀ (acc : BBox) (x : ℚ),
      ((x : WithTop ℚ) < (pts.foldl bboxAdd acc).minX ↔
        ((x : WithTop ℚ) < acc.minX ∧ ∀ p ∈ pts, x < p.1)) := by
  induction pts with
  | nil => intro acc x; simp
  | cons p ps ih =>
    intro acc x
    rw [List.foldl_cons, ih]
    have hmin : (bboxAdd acc p).minX = min acc.minX ((p.1 : ℚ) : WithTop ℚ) := rfl
    constructor
    · rintro ⟨h1, h2⟩
      rw [hmin, lt_min_iff] at h1
      refine ⟨h1.1, fun q hq => ?_⟩
      rcases List.mem_cons.mp hq with h | h
      · subst h; exact_mod_cast h1.2
      · exact h2 q h
    · rintro ⟨h1, h2⟩
      refine ⟨?_, fun q hq => h2 q (List.mem_cons_of_mem p hq)⟩
      rw [hmin, lt_min_iff]
      exact ⟨h1, by exact_mod_cast h2 p (List.mem_cons_self p ps)⟩

theorem bboxAdd_foldl_minY (pts : List Point) :
    ∀ (acc : BBox) (x : ℚ),
      ((x : WithTop ℚ) < (pts.foldl bboxAdd acc).minY ↔
        ((x : WithTop ℚ) < acc.minY ∧ ∀ p ∈ pts, x < p.2)) := by
  induction pts with
  | nil => intro acc x; simp
  | cons p ps ih =>
    intro acc x
    rw [List.foldl_cons, ih]
    have hmin : (bboxAdd acc p).minY = min acc.minY ((p.2 : ℚ) : WithTop ℚ) := rfl
    constructor
    · rintro ⟨h1, h2⟩
      rw [hmin, lt_min_iff] at h1
      refine ⟨h1.1, fun q hq => ?_⟩
      rcases List.mem_cons.mp hq with h | h
      · subst h; exact_mod_cast h1.2
      · exact h2 q h
    · rintro ⟨h1, h2⟩
      refine ⟨?_, fun q hq => h2 q (List.mem_cons_of_mem p hq)⟩
      rw [hmin, lt_min_iff]
      exact ⟨h1, by exact_mod_cast h2 p (List.mem_cons_self p ps)⟩

theorem bboxAdd_foldl_maxX (pts : List Point) :
    ∀ (acc : BBox) (x : ℚ),
      ((pts.foldl bboxAdd acc).maxX < (x : WithBot ℚ) ↔
        (acc.maxX < (x : WithBot ℚ) ∧ ∀ p ∈ pts, p.1 < x)) := by
  induction pts with
  | nil => intro acc x; simp
  | cons p ps ih =>
    intro acc x
    rw [List.foldl_cons, ih]
    have hmax : (bboxAdd acc p).maxX = max acc.maxX ((p.1 : ℚ) : WithBot ℚ) := rfl
    constructor
    · rintro ⟨h1, h2⟩
      rw [hmax, max_lt_iff] at h1
      refine ⟨h1.1, fun q hq => ?_⟩
      rcases List.mem_cons.mp hq with h | h
      · subst h; exact_mod_cast h1.2
      · exact h2 q h
    · rintro ⟨h1, h2⟩
      refine ⟨?_, fun q hq => h2 q (List.mem_cons_of_mem p hq)⟩
      rw [hmax, max_lt_iff]
      exact ⟨h1, by exact_mod_cast h2 p (List.mem_cons_self p ps)⟩

theorem bboxAdd_foldl_maxY (pts : List Point) :
    ∀ (acc : BBox) (x : ℚ),
      ((pts.foldl bboxAdd acc).maxY < (x : WithBot ℚ) ↔
        (acc.maxY < (x : WithBot ℚ) ∧ ∀ p ∈ pts, p.2 < x)) := by
  induction pts with
  | nil => intro acc x; simp
  | cons p ps ih =>
    intro acc x
    rw [List.foldl_cons, ih]
    have hmax : (bboxAdd acc p).maxY = max acc.maxY ((p.2 : ℚ) : WithBot ℚ) := rfl
    constructor
    · rintro ⟨h1, h2⟩
      rw [hmax, max_lt_iff] at h1
      refine ⟨h1.1, fun q hq => ?_⟩
      rcases List.mem_cons.mp hq with h | h
      · subst h; exact_mod_cast h1.2
      · exact h2 q h
    · rintro ⟨h1, h2⟩
      refine ⟨?_, fun q hq => h2 q (List.mem_cons_of_mem p hq)⟩
      rw [hmax, max_lt_iff]
      exact ⟨h1, by exact_mod_cast h2 p (List.mem_cons_self p ps)⟩

theorem outsideBBox_cases (pt : Point) (g : Geometry)
    (h : outsideBBox pt (bboxOfCoords g) = true) :
    (∀ p ∈ geometryPoints g, pt.1 < p.1) ∨ (∀ p ∈ geometryPoints g, p.1 < pt.1) ∨
      (∀ p ∈ geometryPoints g, pt.2 < p.2) ∨ (∀ p ∈ geometryPoints g, p.2 < pt.2) := by
  unfold outsideBBox at h
  simp only [Bool.or_eq_true, decide_eq_true_eq] at h
  unfold bboxOfCoords at h
  rcases h with ((h | h) | h) | h
  · exact Or.inl ((bboxAdd_foldl_minX _ _ _).mp h).2
  · exact Or.inr (Or.inl ((bboxAdd_foldl_maxX _ _ _).mp h).2)
  · exact Or.inr (Or.inr (Or.inl ((bboxAdd_foldl_minY _ _ _).mp h).2))
  · exact Or.inr (Or.inr (Or.inr ((bboxAdd_foldl_maxY _ _ _).mp h).2))

theorem ring_subset_points (g : Geometry) (r : List Point) (hr : r ∈ ringsOf g) :
    ∀ w ∈ r, w ∈ geometryPoints g := by
  intro w hw
  cases g with
  | polygon rings => exact List.mem_flatten.mpr ⟨r, hr, hw⟩
  | multiPolygon polys =>
    rcases List.mem_flatten.mp hr with ⟨poly, hpoly, hrp⟩
    exact List.mem_flatten.mpr
      ⟨poly.flatten, List.mem_map_of_mem List.flatten hpoly, List.mem_flatten.mpr ⟨r, hrp, hw⟩⟩
  | other pts => cases hr

theorem pointInGeometry_false_of_rings (pt : Point) (g : Geometry)
    (h : ∀ r ∈ ringsOf g, pointInRing pt r = false) : pointInGeometry pt g = false := by
  cases g with
  | polygon rings =>
    cases rings with
    | nil => rfl
    | cons outer holes =>
      have houter : pointInRing pt outer = false := h outer (List.mem_cons_self _ _)
      simp [pointInGeometry, pointInPolygon, houter]
  | multiPolygon polys =>
    simp only [pointInGeometry]
    rw [List.any_eq_false]
    intro poly hpoly
    cases hp : poly with
    | nil => simp [pointInPolygon]
    | cons outer holes =>
      have houter : pointInRing pt outer = false := by
        apply h outer
        exact List.mem_flatten.mpr ⟨poly, hpoly, by rw [hp]; exact List.mem_cons_self _ _⟩
      simp [pointInPolygon, houter]
  | other pts => rfl

theorem pointInGeometry_false_of_outside (pt : Point) (g : Geometry)
    (h : outsideBBox pt (bboxOfCoords g) = true) : pointInGeometry pt g = false := by
  rcases outsideBBox_cases pt g h with h | h | h | h <;>
    apply pointInGeometry_false_of_rings pt g <;> intro r hr
  · exact pointInRing_false_left pt r (fun w hw => h w (ring_subset_points g r hr w hw))
  · exact pointInRing_false_right pt r (fun w hw => h w (ring_subset_points g r hr w hw))
  · exact pointInRing_false_below pt r (fun w hw => h w (ring_subset_points g r hr w hw))
  · exact pointInRing_false_above pt r (fun w hw => h w (ring_subset_points g r hr w hw))

/-! ## The lookup loop -/

theorem findParcel_eq_noBBox (pt : Point) :
    ∀ fs : List Feature, findParcelFeatureAtPt pt fs = findParcelFeatureNoBBox pt fs := by
  intro fs
  induction fs with
  | nil => rfl
  | cons f fs ih =>
    cases hg : f.geometry with
    | none => simp [findParcelFeatureAtPt, findParcelFeatureNoBBox, hg, ih]
    | some g =>
      by_cases hout : outsideBBox pt (bboxOfCoords g) = true
      · have hfalse := pointInGeometry_false_of_outside pt g hout
        simp [findParcelFeatureAtPt, findParcelFeatureNoBBox, hg, hout, hfalse, ih]
      · simp [findParcelFeatureAtPt, findParcelFeatureNoBBox, hg,
          eq_false_of_ne_true hout, ih]

theorem findParcelNoBBox_eq_find (pt : Point) :
    ∀ fs : List Feature, findParcelFeatureNoBBox pt fs = fs.find? (featureContains pt) := by
  intro fs
  induction fs with
  | nil => rfl
  | cons f fs ih =>
    cases hg : f.geometry with
    | none => simp [findParcelFeatureNoBBox, List.find?, featureContains, hg, ih]
    | some g =>
      by_cases hc : pointInGeometry pt g = true
      · simp [findParcelFeatureNoBBox, List.find?, featureContains, hg, hc]
      · simp [findParcelFeatureNoBBox, List.find?, featureContains, hg,
          eq_false_of_ne_true hc, ih]

theorem find_first_characterisation {α : Type} (p : α → Bool) :
    ∀ (l : List α) (i : Fin l.length), p (l.get i) = true →
      (∀ j : Fin l.length, j.1 < i.1 → p (l.get j) = false) →
      l.find? p = some (l.get i) := by
  intro l
  induction l with
  | nil => intro i; exact absurd i.2 (by simp)
  | cons a l ih =>
    intro i hi hmin
    rcases i with ⟨iv, hlt⟩
    cases iv with
    | zero =>
      simp only [List.get] at hi
      simp [List.find?, hi]
    | succ n =>
      have ha : p a = false := hmin ⟨0, Nat.succ_pos _⟩ (Nat.succ_pos n)
      have hn : n < l.length := Nat.lt_of_succ_lt_succ hlt
      have hi2 : p (l.get ⟨n, hn⟩) = true := by simpa using hi
      have hmin2 : ∀ j : Fin l.length, j.1 < n → p (l.get j) = false := by
        intro j hj
        have := hmin ⟨j.1 + 1, Nat.succ_lt_succ j.2⟩ (Nat.succ_lt_succ hj)
        simpa using this
      have := ih ⟨n, hn⟩ hi2 hmin2
      simp [List.find?, ha, this]

/-! ## Concrete evaluations on the square-parcel fixture -/

theorem squareGeom_contains_55 : pointInGeometry (5, 5) squareGeom = true := by
  norm_num [pointInGeometry, pointInPolygon, pointInHoles, squareGeom, ringA,
    pointInRing, ringEdges, crossBit, edgeCross, List.getLastD]

theorem squareGeom_inside_bbox_55 : outsideBBox (5, 5) (bboxOfCoords squareGeom) = false := by
  norm_num [outsideBBox, bboxOfCoords, geometryPoints, squareGeom, ringA, bboxAdd, bboxInit]
  decide

theorem squareGeom_outside_bbox_1515 :
    outsideBBox (15, 15) (bboxOfCoords squareGeom) = true := by
  norm_num [outsideBBox, bboxOfCoords, geometryPoints, squareGeom, ringA, bboxAdd, bboxInit]
  decide

theorem findParcel_square_55 : findParcelFeatureAtPt (5, 5) [featA] = some featA := by
  have h1 := squareGeom_inside_bbox_55
  have h2 := squareGeom_contains_55
  simp [findParcelFeatureAtPt, featA, h1, h2]

theorem findParcel_square_1515 : findParcelFeatureAtPt (15, 15) [featA] = none := by
  have h1 := squareGeom_outside_bbox_1515
  simp [findParcelFeatureAtPt, featA, h1]

/-! ## Claim C1 -/

theorem pointInHoles_eq_any (pt : Point) :
    ∀ holes : List (List Point),
      pointInHoles pt holes = holes.any (fun h => pointInRing pt h) := by
  intro holes
  induction holes with
  | nil => rfl
  | cons h hs ih => cases hh : pointInRing pt h <;> simp [pointInHoles, hh, ih]

theorem pointInPolygon_eq_spec (pt : Point) (rings : List (List Point)) :
    pointInPolygon pt rings = specPolygonContains pt rings := by
  cases rings with
  | nil => rfl
  | cons outer holes =>
    show (if !pointInRing pt outer then false else !pointInHoles pt holes)
      = (pointInRing pt outer && holes.all fun h => !pointInRing pt h)
    rw [pointInHoles_eq_any]
    cases ho : pointInRing pt outer
    · simp
    · simp only [Bool.not_true, Bool.false_eq_true, if_false, Bool.true_and]
      induction holes with
      | nil => rfl
      | cons h hs ihh =>
        cases hh : pointInRing pt h <;> simp [hh, ihh]

/-- C1: a Polygon contains the point iff it is inside ring 0 (outer) and in no
hole ring; a MultiPolygon contains it iff at least one member polygon does
under the same rule; any other geometry kind, and an empty ring list, never
contain the point (the dispatch returns `false` instead of failing). -/
theorem C1_geometry_containment :
    (∀ (pt : Point) (g : Geometry), pointInGeometry pt g = specGeometryContains pt g)
    ∧ (∀ pt : Point, pointInPolygon pt [] = false)
    ∧ (∀ (pt : Point) (ptsl : List Point), pointInGeometry pt (.other ptsl) = false) := by
  refine ⟨fun pt g => ?_, fun pt => rfl, fun pt ptsl => rfl⟩
  cases g with
  | polygon rings => exact pointInPolygon_eq_spec pt rings
  | multiPolygon polys =>
    simp only [pointInGeometry, specGeometryContains]
    have hfun : (fun poly => pointInPolygon pt poly)
        = fun poly => specPolygonContains pt poly :=
      funext (pointInPolygon_eq_spec pt)
    rw [hfun]
  | other ptsl => rfl

/-! ## Claim C2 (amended part: the typed model) -/

/-- C2 amended: over well-formed coordinates the bounding-box pre-filter is a
pure optimisation: outside the box the containment test is false, and removing
the skip never changes the result of the lookup.  (As literally stated over
arbitrary inputs the claim fails, see the counterexample: on malformed
coordinates the skip can hide a `TypeError` that the containment test would
raise.) -/
theorem C2_bbox_prefilter_amended :
    (∀ (pt : Point) (g : Geometry), outsideBBox pt (bboxOfCoords g) = true →
      pointInGeometry pt g = false)
    ∧ ∀ (pt : Point) (fs : List Feature),
      findParcelFeatureAtPt pt fs = findParcelFeatureNoBBox pt fs :=
  ⟨pointInGeometry_false_of_outside, findParcel_eq_noBBox⟩

/-- Witness for C2 amended: the hypothesis holds at `(15, 15)` against the
square parcel, whose containment test is indeed false there. -/
theorem C2_witness :
    pointInGeometry (15, 15) squareGeom = false
      ∧ findParcelFeatureAtPt (15, 15) [featA] = findParcelFeatureNoBBox (15, 15) [featA] :=
  ⟨C2_bbox_prefilter_amended.1 (15, 15) squareGeom squareGeom_outside_bbox_1515,
    C2_bbox_prefilter_amended.2 (15, 15) [featA]⟩

/-! ## Claim C4 -/

/-- C4: when the drawn layer's representative point (marker position, else
envelope center) lies in a found parcel, the snap resolver returns that
parcel's geometry if its kind is Polygon or MultiPolygon and nothing
otherwise; on the one-square-parcel index, `(5,5)` finds parcel "A", `(15,15)`
finds nothing, and a marker at `(5,5)` resolves to "A"'s geometry. -/
theorem C4_snap_resolver :
    (∀ (fs : List Feature) (layer : Layer) (c : LatLng) (f : Feature),
      layerCentroidLatLng layer = some c →
      findParcelFeatureAtPt (latLngToPoint c) fs = some f →
      (∀ g, f.geometry = some g → isAreaGeometry g = true → resolveSnap fs layer = some g)
      ∧ ((∀ g, f.geometry = some g → isAreaGeometry g = false) →
        resolveSnap fs layer = none))
    ∧ findParcelFeatureAtPt (5, 5) [featA] = some featA
    ∧ findParcelFeatureAtPt (15, 15) [featA] = none
    ∧ resolveSnap [featA] marker55 = some squareGeom := by
  refine ⟨fun fs layer c f hc hf => ⟨fun g hg harea => ?_, fun hnone => ?_⟩,
    findParcel_square_55, findParcel_square_1515, ?_⟩
  · simp only [resolveSnap, hc, hf, hg, harea, if_true]
  · simp only [resolveSnap, hc, hf]
    cases hg : f.geometry with
    | none => simp only [hg]
    | some g => simp only [hg, hnone g hg, Bool.false_eq_true, if_false]
  · have hc2 : layerCentroidLatLng marker55 = some ⟨5, 5⟩ := rfl
    have hp : latLngToPoint (⟨5, 5⟩ : LatLng) = ((5 : ℚ), (5 : ℚ)) := rfl
    simp only [resolveSnap, hc2, hp, findParcel_square_55]
    rfl

/-- Witness for C4: the universal part applies to the concrete marker. -/
theorem C4_witness : resolveSnap [featA] marker55 = some squareGeom :=
  (C4_snap_resolver.1 [featA] marker55 ⟨5, 5⟩ featA rfl findParcel_square_55).1
    squareGeom rfl rfl

/-! ## Claim C5 -/

/-- C5: the lookup iterates features in construction order and returns the
first one whose containment test succeeds (the smallest matching index); if no
feature matches, it returns none. -/
theorem C5_first_match (pt : Point) (fs : List Feature) :
    (∀ i : Fin fs.length, featureContains pt (fs.get i) = true →
      (∀ j : Fin fs.length, j.1 < i.1 → featureContains pt (fs.get j) = false) →
      findParcelFeatureAtPt pt fs = some (fs.get i))
    ∧ ((∀ f ∈ fs, featureContains pt f = false) → findParcelFeatureAtPt pt fs = none) := by
  constructor
  · intro i hi hmin
    rw [findParcel_eq_noBBox, findParcelNoBBox_eq_find]
    exact find_first_characterisation (featureContains pt) fs i hi hmin
  · intro h
    rw [findParcel_eq_noBBox, findParcelNoBBox_eq_find]
    rw [List.find?_eq_none]
    intro f hf
    simp [h f hf]

/-- Witness for C5: its hypotheses hold for the square parcel at index 0. -/
theorem C5_witness : findParcelFeatureAtPt (5, 5) [featA] = some ([featA].get ⟨0, by decide⟩) := by
  apply (C5_first_match (5, 5) [featA]).1 ⟨0, by decide⟩
  · show featureContains (5, 5) featA = true
    unfold featureContains featA
    exact squareGeom_contains_55
  · intro j hj
    exact absurd hj (Nat.not_lt_zero j.1)

/-! ## Claim C7 -/

theorem ringChain_append_singleton (pt : Point) :
    ∀ (l : List Point) (prev x : Point),
      ringChain pt prev (l ++ [x])
        = Bool.xor (ringChain pt prev l) (crossBit pt (l.getLastD prev, x)) := by
  intro l
  induction l with
  | nil => intro prev x; simp [ringChain]
  | cons v vs ih =>
    intro prev x
    rw [List.cons_append, ringChain, ih, ringChain, List.getLastD_cons]
    cases crossBit pt (prev, v) <;> cases ringChain pt v vs <;>
      cases crossBit pt (vs.getLastD v, x) <;> rfl

/-- C7: the ray-casting test treats the ring as cyclically closed: appending a
copy of the first vertex to a ring of at least three vertices does not change
the result. -/
theorem C7_ring_closure (pt : Point) (ring : List Point) (h : 3 ≤ ring.length) :
    pointInRing pt (ring ++ [ring.headI]) = pointInRing pt ring := by
  rcases ring with _ | ⟨v, vs⟩
  · simp at h
  · show pointInRing pt (v :: (vs ++ [v])) = pointInRing pt (v :: vs)
    rw [pointInRing_eq_ringChain pt v (vs ++ [v]), pointInRing_eq_ringChain pt v vs]
    have h1 : (v :: (vs ++ [v])).getLastD v = v := by
      have h2 : v :: (vs ++ [v]) = (v :: vs) ++ [v] := rfl
      rw [h2, List.getLastD_concat]
    rw [h1]
    have h3 : ringChain pt v (v :: (vs ++ [v])) = ringChain pt v ((v :: vs) ++ [v]) := rfl
    rw [h3, ringChain_append_singleton]
    have h4 : ringChain pt v (v :: vs)
        = Bool.xor (crossBit pt (v, v)) (ringChain pt v vs) := rfl
    have h5 : ringChain pt ((v :: vs).getLastD v) (v :: vs)
        = Bool.xor (crossBit pt ((v :: vs).getLastD v, v)) (ringChain pt v vs) := rfl
    rw [h4, h5, crossBit_false_of_flag pt v v rfl]
    cases ringChain pt v vs <;> cases crossBit pt ((v :: vs).getLastD v, v) <;> rfl

/-- Witness for C7: the triangle fixture has three vertices. -/
theorem C7_witness :
    pointInRing (1, 1) (ringW ++ [ringW.headI]) = pointInRing (1, 1) ringW :=
  C7_ring_closure (1, 1) ringW (by decide)

/-! ## Claim C10 -/

theorem edgeCross_eq_exact (x y xi yi xj yj : ℚ) :
    edgeCross x y xi yi xj yj = edgeCrossExact x y xi yi xj yj := by
  unfold edgeCross edgeCrossExact
  by_cases h1 : (decide (yi > y) != decide (yj > y)) = true
  · have hden := edge_flags_den_ne (edge_flags_cases h1)
    rw [if_neg hden]
  · rw [eq_false_of_ne_true h1, Bool.false_and, Bool.false_and]

/-- C10: the `|| 1e-12` denominator guard in the crossing test is never the
deciding factor: whenever the crossing condition `(yi > y) !== (yj > y)`
holds, `yj - yi` is nonzero (a horizontal edge short-circuits the
conjunction), so replacing the guarded denominator with the exact `yj - yi`
yields an identical `pointInRing` on every input. -/
theorem C10_denominator_guard :
    (∀ (pt : Point) (ring : List Point), pointInRingExact pt ring = pointInRing pt ring)
    ∧ (∀ y yi yj : ℚ, (decide (yi > y) != decide (yj > y)) = true → yj - yi ≠ 0) := by
  constructor
  · intro pt ring
    have hfun : (fun (inside : Bool) (e : Point × Point) =>
          if edgeCrossExact pt.1 pt.2 e.2.1 e.2.2 e.1.1 e.1.2 then !inside else inside)
        = fun (inside : Bool) (e : Point × Point) =>
          if crossBit pt e then !inside else inside := by
      funext inside e
      rw [show crossBit pt e = edgeCross pt.1 pt.2 e.2.1 e.2.2 e.1.1 e.1.2 from rfl,
        edgeCross_eq_exact]
    rw [pointInRingExact, pointInRing, hfun]
  · intro y yi yj h
    exact edge_flags_den_ne (edge_flags_cases h)

/-- Witness for C10: the hypothesis of the second part holds at a concrete
non-horizontal edge. -/
theorem C10_witness :
    pointInRingExact (1, 1) ringW = pointInRing (1, 1) ringW ∧ (3 : ℚ) - 1 ≠ 0 :=
  ⟨C10_denominator_guard.1 (1, 1) ringW, C10_denominator_guard.2 2 1 3 (by decide)⟩

/-! ## Claim C3 (corrected, counterexample) and Claim C2 (counterexample) -/

/-- C3 as stated is false: a feature whose geometry is present but has no
`coordinates` makes the lookup raise (`walk(undefined)` evaluates
`undefined[0]`), instead of treating the record as never matched. -/
theorem C3_counterexample : findContainingJs (0, 0) [featNoCoords] = .error () := rfl

/-- C2 as stated is false on malformed coordinates: for this parcel the query
point `(5, 5)` is outside the bounding box, so the lookup with the skip
returns none, while the lookup without the skip evaluates the containment
test, which raises a TypeError (`null[0]`) rather than returning false. -/
theorem C2_counterexample :
    findContainingJs (5, 5) [featNullVert] = .ok none
      ∧ findContainingNoBBoxJs (5, 5) [featNullVert] = .error () := by
  constructor
  · rfl
  · rfl

/-! ## Totality of the lookup on well-formed inputs -/

theorem jsVal_induction (motive : JsVal → Prop)
    (hnum : ∀ q, motive (.num q)) (hnull : motive .null) (hundef : motive .undef)
    (harr : ∀ xs, (∀ x ∈ xs, motive x) → motive (.arr xs)) :
    ∀ v, motive v
  | .num q => hnum q
  | .null => hnull
  | .undef => hundef
  | .arr xs => harr xs (fun x hx =>
      jsVal_induction motive hnum hnull hundef harr x)
termination_by v => sizeOf v
decreasing_by
  simp only [JsVal.arr.sizeOf_spec]
  have := List.sizeOf_lt_of_mem hx
  omega

theorem exceptOk_bind {α β : Type} (a : α) (f : α → Except Unit β) :
    (Except.ok a >>= f) = f a := rfl

theorem walkBBoxList_ok (xs : List JsVal)
    (hok : ∀ x ∈ xs, ∀ bb : BBox, ∃ bb2, walkBBox x bb = .ok bb2) :
    ∀ bb : BBox, ∃ bb2, walkBBoxList xs bb = .ok bb2 := by
  induction xs with
  | nil => intro bb; exact ⟨bb, rfl⟩
  | cons x xs ih =>
    intro bb
    obtain ⟨bb2, hx⟩ := hok x (List.mem_cons_self x xs) bb
    obtain ⟨bb3, hxs⟩ := ih (fun y hy => hok y (List.mem_cons_of_mem x hy)) bb2
    exact ⟨bb3, by rw [walkBBoxList, hx]; simpa using hxs⟩

theorem listWalkable_mem {xs : List JsVal} (h : listWalkable xs = true) :
    ∀ x ∈ xs, isWalkable x = true := by
  induction xs with
  | nil => intro x hx; cases hx
  | cons y ys ih =>
    rw [listWalkable, Bool.and_eq_true] at h
    intro x hx
    rcases List.mem_cons.mp hx with hx | hx
    · subst hx; exact h.1
    · exact ih h.2 x hx

theorem walkBBox_ok_of_walkable :
    ∀ v : JsVal, isWalkable v = true → ∀ bb : BBox, ∃ bb2, walkBBox v bb = .ok bb2 := by
  intro v
  induction v using jsVal_induction with
  | hnum q => intro h; simp [isWalkable] at h
  | hnull => intro h; simp [isWalkable] at h
  | hundef => intro h; simp [isWalkable] at h
  | harr xs ih =>
    intro hw bb
    cases hp : headPair xs with
    | some p => exact ⟨bboxAdd bb p, by rw [walkBBox, hp]⟩
    | none =>
      rw [isWalkable, hp, Option.isSome_none, Bool.false_or] at hw
      obtain ⟨bb2, hlist⟩ :=
        walkBBoxList_ok xs (fun x hx => ih x hx (listWalkable_mem hw x hx)) bb
      exact ⟨bb2, by rw [walkBBox, hp]; exact hlist⟩

theorem listWalkable_of_all (xs : List JsVal)
    (h : ∀ x ∈ xs, isWalkable x = true) : listWalkable xs = true := by
  induction xs with
  | nil => rfl
  | cons y ys ih =>
    rw [listWalkable, Bool.and_eq_true]
    exact ⟨h y (List.mem_cons_self y ys),
      ih (fun x hx => h x (List.mem_cons_of_mem y hx))⟩

theorem isWFVert_walkable (v : JsVal) (h : isWFVert v = true) : isWalkable v = true := by
  cases v with
  | arr xs => rw [isWalkable]; rw [isWFVert] at h; rw [h, Bool.true_or]
  | num q => simp [isWFVert] at h
  | null => simp [isWFVert] at h
  | undef => simp [isWFVert] at h

theorem isWFRing_walkable (r : JsVal) (h : isWFRing r = true) : isWalkable r = true := by
  cases r with
  | arr vs =>
    rw [isWFRing, List.all_eq_true] at h
    rw [isWalkable,
      listWalkable_of_all vs (fun x hx => isWFVert_walkable x (h x hx)), Bool.or_true]
  | num q => simp [isWFRing] at h
  | null => simp [isWFRing] at h
  | undef => simp [isWFRing] at h

theorem isWFPoly_walkable (p : JsVal) (h : isWFPoly p = true) : isWalkable p = true := by
  cases p with
  | arr rs =>
    rw [isWFPoly, List.all_eq_true] at h
    rw [isWalkable,
      listWalkable_of_all rs (fun x hx => isWFRing_walkable x (h x hx)), Bool.or_true]
  | num q => simp [isWFPoly] at h
  | null => simp [isWFPoly] at h
  | undef => simp [isWFPoly] at h

theorem isWFMulti_walkable (m : JsVal) (h : isWFMulti m = true) : isWalkable m = true := by
  cases m with
  | arr ps =>
    rw [isWFMulti, List.all_eq_true] at h
    rw [isWalkable,
      listWalkable_of_all ps (fun x hx => isWFPoly_walkable x (h x hx)), Bool.or_true]
  | num q => simp [isWFMulti] at h
  | null => simp [isWFMulti] at h
  | undef => simp [isWFMulti] at h

theorem isWFGeom_walkable (g : GeomJs) (h : isWFGeom g = true) :
    isWalkable g.coordinates = true := by
  rw [isWFGeom] at h
  by_cases h1 : g.type = "Polygon"
  · rw [if_pos h1] at h; exact isWFPoly_walkable _ h
  · rw [if_neg h1] at h
    by_cases h2 : g.type = "MultiPolygon"
    · rw [if_pos h2] at h; exact isWFMulti_walkable _ h
    · rw [if_neg h2] at h; exact h

theorem foldlM_except_ok {α β : Type} (f : β → α → Except Unit β) (l : List α)
    (h : ∀ (b : β) (a : α), a ∈ l → ∃ b2, f b a = .ok b2) :
    ∀ b : β, ∃ b2, l.foldlM f b = .ok b2 := by
  induction l with
  | nil => intro b; exact ⟨b, rfl⟩
  | cons a l ih =>
    intro b
    obtain ⟨b2, hb⟩ := h b a (List.mem_cons_self a l)
    obtain ⟨b3, hl⟩ := ih (fun b a ha => h b a (List.mem_cons_of_mem _ ha)) b2
    refine ⟨b3, ?_⟩
    rw [List.foldlM_cons, hb]
    simpa using hl

theorem ringStepJs_ok (pt : ℚ × ℚ) (vs : List JsVal)
    (hvs : ∀ v ∈ vs, isWFVert v = true) (inside : Bool) (i : Nat)
    (hi : i ∈ List.range vs.length) :
    ∃ b, ringStepJs pt vs inside i = .ok b := by
  have hin : i < vs.length := List.mem_range.mp hi
  have hidx : ∀ v ∈ vs, ∀ k : Nat, ∃ w, jsIdx v k = .ok w := by
    intro v hv k
    have hwf := hvs v hv
    cases v with
    | arr xs => exact ⟨xs.getD k .undef, rfl⟩
    | num q => exact ⟨.undef, rfl⟩
    | null => simp [isWFVert] at hwf
    | undef => simp [isWFVert] at hwf
  have hvi : vs.getD i .undef ∈ vs := by
    rw [List.getD_eq_getElem vs .undef hin]
    exact List.getElem_mem hin
  have hn : 0 < vs.length := Nat.lt_of_le_of_lt (Nat.zero_le i) hin
  have hjn : (if i = 0 then vs.length - 1 else i - 1) < vs.length := by
    split <;> omega
  have hvj : vs.getD (if i = 0 then vs.length - 1 else i - 1) .undef ∈ vs := by
    rw [List.getD_eq_getElem vs .undef hjn]
    exact List.getElem_mem hjn
  obtain ⟨xi, hxi⟩ := hidx _ hvi 0
  obtain ⟨yi, hyi⟩ := hidx _ hvi 1
  obtain ⟨xj, hxj⟩ := hidx _ hvj 0
  obtain ⟨yj, hyj⟩ := hidx _ hvj 1
  have hstep : ringStepJs pt vs inside i
      = .ok (if (optGtB (toNum yi) pt.2 != optGtB (toNum yj) pt.2)
          && optLtB pt.1 (optAdd (optDivQ (optMul (optSub (toNum xj) (toNum xi))
            (optSub (some pt.2) (toNum yi))) (guardDenom (optSub (toNum yj) (toNum yi))))
            (toNum xi))
        then !inside else inside) := by
    simp only [ringStepJs]
    rw [hxi, hyi, hxj, hyj, exceptOk_bind, exceptOk_bind, exceptOk_bind, exceptOk_bind]
    rfl
  exact ⟨_, hstep⟩

theorem pointInRingJs_ok (pt : ℚ × ℚ) (ring : JsVal) (h : isWFRing ring = true) :
    ∃ b, pointInRingJs pt ring = .ok b := by
  cases ring with
  | arr vs =>
    rw [isWFRing, List.all_eq_true] at h
    exact foldlM_except_ok (ringStepJs pt vs) (List.range vs.length)
      (fun b i hi => ringStepJs_ok pt vs h b i hi) false
  | num q => exact ⟨false, rfl⟩
  | null => simp [isWFRing] at h
  | undef => simp [isWFRing] at h

theorem pointInHolesJs_ok (pt : ℚ × ℚ) (holes : List JsVal)
    (h : ∀ r ∈ holes, isWFRing r = true) :
    ∃ b, pointInHolesJs pt holes = .ok b := by
  induction holes with
  | nil => exact ⟨false, rfl⟩
  | cons r rs ih =>
    obtain ⟨b, hb⟩ := pointInRingJs_ok pt r (h r (List.mem_cons_self r rs))
    obtain ⟨b2, hb2⟩ := ih (fun x hx => h x (List.mem_cons_of_mem r hx))
    cases b with
    | true => exact ⟨true, by rw [pointInHolesJs, hb]; rfl⟩
    | false => exact ⟨b2, by rw [pointInHolesJs, hb]; simpa using hb2⟩

theorem pointInPolygonJs_ok (pt : ℚ × ℚ) (c : JsVal) (h : isWFPoly c = true) :
    ∃ b, pointInPolygonJs pt c = .ok b := by
  cases c with
  | arr rs =>
    cases rs with
    | nil => exact ⟨false, rfl⟩
    | cons outer holes =>
      rw [isWFPoly, List.all_eq_true] at h
      obtain ⟨b, hb⟩ := pointInRingJs_ok pt outer (h outer (List.mem_cons_self _ _))
      cases b with
      | false => exact ⟨false, by rw [pointInPolygonJs, hb]; rfl⟩
      | true =>
        obtain ⟨b2, hb2⟩ :=
          pointInHolesJs_ok pt holes (fun r hr => h r (List.mem_cons_of_mem _ hr))
        exact ⟨!b2, by rw [pointInPolygonJs, hb, hb2]; rfl⟩
  | num q => exact ⟨false, rfl⟩
  | null => exact ⟨false, rfl⟩
  | undef => exact ⟨false, rfl⟩

theorem anyPolyJs_ok (pt : ℚ × ℚ) (polys : List JsVal)
    (h : ∀ p ∈ polys, isWFPoly p = true) :
    ∃ b, anyPolyJs pt polys = .ok b := by
  induction polys with
  | nil => exact ⟨false, rfl⟩
  | cons p ps ih =>
    obtain ⟨b, hb⟩ := pointInPolygonJs_ok pt p (h p (List.mem_cons_self p ps))
    obtain ⟨b2, hb2⟩ := ih (fun x hx => h x (List.mem_cons_of_mem p hx))
    cases b with
    | true => exact ⟨true, by rw [anyPolyJs, hb]; rfl⟩
    | false => exact ⟨b2, by rw [anyPolyJs, hb]; simpa using hb2⟩

theorem pointInGeometryJs_ok (pt : ℚ × ℚ) (g : GeomJs) (h : isWFGeom g = true) :
    ∃ b, pointInGeometryJs pt g = .ok b := by
  rw [isWFGeom] at h
  by_cases h1 : g.type = "Polygon"
  · rw [if_pos h1] at h
    obtain ⟨b, hb⟩ := pointInPolygonJs_ok pt g.coordinates h
    exact ⟨b, by rw [pointInGeometryJs, if_pos h1]; exact hb⟩
  · rw [if_neg h1] at h
    by_cases h2 : g.type = "MultiPolygon"
    · rw [if_pos h2] at h
      cases hc : g.coordinates with
      | arr polys =>
        rw [hc, isWFMulti, List.all_eq_true] at h
        obtain ⟨b, hb⟩ := anyPolyJs_ok pt polys h
        exact ⟨b, by rw [pointInGeometryJs, if_neg h1, if_pos h2, hc]; exact hb⟩
      | num q => rw [hc] at h; simp [isWFMulti] at h
      | null => rw [hc] at h; simp [isWFMulti] at h
      | undef => rw [hc] at h; simp [isWFMulti] at h
    · exact ⟨false, by rw [pointInGeometryJs, if_neg h1, if_neg h2]⟩

theorem findContainingJs_ok (pt : ℚ × ℚ) :
    ∀ fs : List FeatureJs, fs.all isWFFeature = true →
      ∃ r, findContainingJs pt fs = .ok r := by
  intro fs
  induction fs with
  | nil => intro _; exact ⟨none, rfl⟩
  | cons f fs ih =>
    intro h
    rw [List.all_cons, Bool.and_eq_true] at h
    obtain ⟨hf, hfs⟩ := h
    cases hg : f.geometry with
    | none => obtain ⟨r, hr⟩ := ih hfs; exact ⟨r, by rw [findContainingJs, hg]; exact hr⟩
    | some g =>
      rw [isWFFeature, hg] at hf
      obtain ⟨bb, hbb⟩ :=
        walkBBox_ok_of_walkable g.coordinates (isWFGeom_walkable g hf) bboxInit
      obtain ⟨r, hr⟩ := ih hfs
      have hunfold : findContainingJs pt (f :: fs)
          = (do
            let bb2 ← walkBBox g.coordinates bboxInit
            if outsideBBox pt bb2 then findContainingJs pt fs
            else do
              let b ← pointInGeometryJs pt g
              if b then pure (some f) else findContainingJs pt fs) := by
        simp only [findContainingJs, hg, bboxOfCoordsJs]
      by_cases hout : outsideBBox pt bb = true
      · exact ⟨r, by rw [hunfold, hbb, exceptOk_bind]; simp [hout, hr]⟩
      · obtain ⟨b, hb⟩ := pointInGeometryJs_ok pt g hf
        cases b with
        | true =>
          exact ⟨some f, by
            rw [hunfold, hbb, exceptOk_bind]
            simp [eq_false_of_ne_true hout, hb, exceptOk_bind]
            rfl⟩
        | false =>
          exact ⟨r, by
            rw [hunfold, hbb, exceptOk_bind]
            simp [eq_false_of_ne_true hout, hb, hr, exceptOk_bind]⟩

theorem resolveJs_ok (fs : List FeatureJs) (layer : Layer)
    (h : fs.all isWFFeature = true) : ∃ r, resolveJs fs layer = .ok r := by
  cases hc : layerCentroidLatLng layer with
  | none => exact ⟨none, by rw [resolveJs, hc]⟩
  | some c =>
    obtain ⟨r, hr⟩ := findContainingJs_ok (latLngToPoint c) fs h
    have hunfold : resolveJs fs layer
        = (do
          let r ← findContainingJs (latLngToPoint c) fs
          match r with
          | some f =>
            match f.geometry with
            | some g =>
              if g.type = "Polygon" || g.type = "MultiPolygon" then pure (some g)
              else pure none
            | none => pure none
          | none => pure none) := by
      simp only [resolveJs, hc]
    cases r with
    | none => exact ⟨none, by rw [hunfold, hr]; rfl⟩
    | some f =>
      cases hg : f.geometry with
      | none => exact ⟨none, by rw [hunfold, hr, exceptOk_bind]; simp [hg]; rfl⟩
      | some g =>
        by_cases ht : g.type = "Polygon" ∨ g.type = "MultiPolygon"
        · exact ⟨some g, by rw [hunfold, hr, exceptOk_bind]; simp [hg, ht]; rfl⟩
        · exact ⟨none, by rw [hunfold, hr, exceptOk_bind]; simp [hg, ht]; rfl⟩

/-! ## Claim C3 (amended part) -/

/-- C3 amended: provided every feature's present geometry has structurally
well-formed coordinates, `findContaining` and `resolve` never raise; an empty
index always yields none, a drawn shape without a derivable representative
point resolves to none, and malformed-but-harmless records are simply never
matched: an unknown geometry kind, a polygon whose outer ring is empty, and an
empty ring list all have a containment test that returns false rather than
failing.  (As literally stated — over all inputs, including missing or
non-array coordinates — the claim fails, see the counterexample.) -/
theorem C3_totality_amended (pt : ℚ × ℚ) (fs : List FeatureJs) (layer : Layer)
    (h : fs.all isWFFeature = true) :
    (∃ r, findContainingJs pt fs = .ok r)
    ∧ (∃ r, resolveJs fs layer = .ok r)
    ∧ findContainingJs pt [] = .ok none
    ∧ (layerCentroidLatLng layer = none → resolveJs fs layer = .ok none)
    ∧ (∀ g : GeomJs, g.type ≠ "Polygon" → g.type ≠ "MultiPolygon" →
        pointInGeometryJs pt g = .ok false)
    ∧ (∀ holes : List JsVal, pointInPolygonJs pt (.arr (.arr [] :: holes)) = .ok false)
    ∧ pointInPolygonJs pt (.arr []) = .ok false := by
  refine ⟨findContainingJs_ok pt fs h, resolveJs_ok fs layer h, rfl, fun hc => ?_,
    fun g h1 h2 => ?_, fun holes => rfl, rfl⟩
  · rw [resolveJs, hc]
  · rw [pointInGeometryJs, if_neg h1, if_neg h2]

/-- Witness for C3 amended: the square parcel is well-formed, the lookup and
the resolver return without raising, and a concrete unknown-kind geometry is
never matched. -/
theorem C3_witness :
    [featAJs].all isWFFeature = true
      ∧ (∃ r, findContainingJs (5, 5) [featAJs] = .ok r)
      ∧ (∃ r, resolveJs [featAJs] marker55 = .ok r)
      ∧ pointInGeometryJs (5, 5) ⟨"Point", .arr [.num 5, .num 5]⟩ = .ok false := by
  have hwf : [featAJs].all isWFFeature = true := by decide
  exact ⟨hwf, (C3_totality_amended (5, 5) [featAJs] marker55 hwf).1,
    (C3_totality_amended (5, 5) [featAJs] marker55 hwf).2.1,
    (C3_totality_amended (5, 5) [featAJs] marker55 hwf).2.2.2.2.1
      ⟨"Point", .arr [.num 5, .num 5]⟩ (by decide) (by decide)⟩
